import Mathlib

/-!
# Telemetry log extension: lifecycle coordinator and telemetry ingest pipeline

A shallow embedding of the Go sources

* `telemetry/listener.go` (request handler, listener shutdown),
* `telemetry/client.go` (`resolveSubscribeEvents`, `Subscribe`),
* `extension/client.go` (`Register`),
* `main.go` (the event loop of `main`),

together with the properties established about them.

Conventions of the embedding.

* A Go `map[string]interface{}` is a list of entries with pairwise distinct keys
  (`GoMap`); `m[k] = v` is `GoMap.set`, and `for k, v := range m` visits the entries
  in list order.  The order in which Go visits a map is unspecified; the lemma
  `GoMap.get_mergeInto_perm` shows that the merge loops of the handler do not depend
  on it.
* A value held in an `interface{}` after JSON decoding is a `Json` value.  A `float64`
  is represented by the number literal it was decoded from.
* Functions of the Go standard library (`json.Unmarshal`, `unicode.ToLower`) are
  parameters of the definitions that call them.  `GoJson` is a model of the
  `encoding/json` decoder that is used to evaluate the definitions on concrete inputs.
* Calls on collaborators (writers, the HTTP server, the Extension API) are recorded
  in an explicit trace; their results are supplied by the environment.
-/

namespace TelemetryExt

/-! ## Dynamic values and Go maps -/

/-- Value of an `interface{}` produced by `encoding/json`: `nil`, `bool`, `float64`
(kept as its literal), `string`, `[]interface{}` or `map[string]interface{}`. -/
inductive Json where
  | null
  | bool (b : Bool)
  | num (lit : String)
  | str (s : String)
  | arr (xs : List Json)
  | obj (kvs : List (String × Json))

/-- Lookup in a list of map entries: the first entry with key `k`. -/
def getEntries (k : String) : List (String × Json) → Option Json
  | [] => none
  | (k', v) :: rest => if k' = k then some v else getEntries k rest

/-- Assignment `m[k] = v` on a list of map entries: the entry for `k` is replaced
where it stands, or added at the end when there is none. -/
def setEntries (k : String) (v : Json) : List (String × Json) → List (String × Json)
  | [] => [(k, v)]
  | (k', v') :: rest =>
    if k' = k then (k, v) :: rest else (k', v') :: setEntries k v rest

/-- Go value of type `map[string]interface{}`: entries with pairwise distinct keys. -/
structure GoMap where
  entries : List (String × Json)
  nodup : (entries.map Prod.fst).Nodup

namespace GoMap

/-- The empty map (also the behaviour of a `nil` map under lookup and `range`). -/
def empty : GoMap := ⟨[], List.nodup_nil⟩

/-- Lookup `m[k]` with presence flag. -/
def get (m : GoMap) (k : String) : Option Json := getEntries k m.entries

/-- Assignment `m[k] = v`. -/
def set (m : GoMap) (k : String) (v : Json) : GoMap :=
  ⟨setEntries k v m.entries, by
    have keys : ∀ l : List (String × Json), (setEntries k v l).map Prod.fst =
        if k ∈ l.map Prod.fst then l.map Prod.fst else l.map Prod.fst ++ [k] := by
      intro l
      induction l with
      | nil => simp [setEntries]
      | cons e rest ih =>
        obtain ⟨k', v'⟩ := e
        by_cases h : k' = k
        · subst h
          simp [setEntries]
        · have h' : ¬ k = k' := fun e => h e.symm
          by_cases hm : k ∈ rest.map Prod.fst
          · simp only [setEntries, h, if_false, List.map_cons, ih, hm, if_true,
              List.mem_cons, or_true]
          · simp only [setEntries, h, if_false, List.map_cons, ih, hm, List.mem_cons, h',
              or_self, List.cons_append]
    rw [keys]
    by_cases hm : k ∈ m.entries.map Prod.fst
    · simpa [hm] using m.nodup
    · rw [if_neg hm]
      exact List.Nodup.append m.nodup (List.nodup_singleton k)
        (by simpa [List.disjoint_singleton] using hm)⟩

/-- The loop `for k, v := range src { dst[k] = v }`, visiting `src` in list order. -/
def mergeInto (dst : GoMap) (src : List (String × Json)) : GoMap :=
  src.foldl (fun m kv => m.set kv.1 kv.2) dst

/-- Map built from a sequence of key/value pairs read left to right, a later pair
replacing an earlier one with the same key. -/
def ofList (kvs : List (String × Json)) : GoMap := mergeInto empty kvs

end GoMap

/-! ## A model of the `encoding/json` decoder -/

/-- A Go `error` value: one of the two error types of `encoding/json` that the program
can meet, or an error with a message (`fmt.Errorf`, transport and I/O errors). -/
inductive GoError where
  | syntaxError
  | unmarshalTypeError
  | message (msg : String)
  deriving DecidableEq

namespace GoJson

/-- JSON insignificant whitespace. -/
def isSpace (c : Char) : Bool := c = ' ' || c = '\t' || c = '\r' || c = '\n'

/-- Drops leading whitespace. -/
def skipSpace : List Char → List Char
  | [] => []
  | c :: cs => if isSpace c then skipSpace cs else c :: cs

/-- Splits off the longest prefix of decimal digits. -/
def spanDigits : List Char → List Char × List Char
  | [] => ([], [])
  | c :: cs =>
    if c.isDigit then ((spanDigits cs).1.cons c, (spanDigits cs).2) else ([], c :: cs)

/-- Integer part of a number: `0`, or a non-empty digit run not starting with `0`. -/
def scanInt : List Char → Option (List Char × List Char)
  | '0' :: rest => some (['0'], rest)
  | cs =>
    match spanDigits cs with
    | ([], _) => none
    | (ds, rest) => some (ds, rest)

/-- Optional fraction part: `.` followed by at least one digit. -/
def scanFrac : List Char → Option (List Char × List Char)
  | '.' :: rest =>
    match spanDigits rest with
    | ([], _) => none
    | (ds, r) => some ('.' :: ds, r)
  | cs => some ([], cs)

/-- Optional sign of an exponent. -/
def scanSign : List Char → List Char × List Char
  | '+' :: r => (['+'], r)
  | '-' :: r => (['-'], r)
  | r => ([], r)

/-- Optional exponent part: `e` or `E`, an optional sign, at least one digit. -/
def scanExp : List Char → Option (List Char × List Char)
  | [] => some ([], [])
  | c :: rest =>
    if c = 'e' || c = 'E' then
      match spanDigits (scanSign rest).2 with
      | ([], _) => none
      | (ds, r) => some (c :: (scanSign rest).1 ++ ds, r)
    else some ([], c :: rest)

/-- Optional leading minus of a number. -/
def scanMinus : List Char → List Char × List Char
  | '-' :: r => (['-'], r)
  | r => ([], r)

/-- Number literal; the result is the literal and the remaining input. -/
def scanNumber (cs : List Char) : Option (String × List Char) :=
  match scanInt (scanMinus cs).2 with
  | none => none
  | some (i, cs2) =>
    match scanFrac cs2 with
    | none => none
    | some (f, cs3) =>
      match scanExp cs3 with
      | none => none
      | some (e, cs4) => some (String.mk ((scanMinus cs).1 ++ i ++ f ++ e), cs4)

/-- Value of a hexadecimal digit. -/
def hexVal (c : Char) : Option Nat :=
  if '0' ≤ c ∧ c ≤ '9' then some (c.toNat - 48)
  else if 'a' ≤ c ∧ c ≤ 'f' then some (c.toNat - 87)
  else if 'A' ≤ c ∧ c ≤ 'F' then some (c.toNat - 55)
  else none

/-- Value of the escape at the head of the input (`getu4`), when the input starts
with a backslash, `u` and four hexadecimal digits. -/
def getu4 : List Char → Option Nat
  | '\\' :: 'u' :: a :: b :: c :: d :: _ =>
    match hexVal a, hexVal b, hexVal c, hexVal d with
    | some a, some b, some c, some d => some (((a * 16 + b) * 16 + c) * 16 + d)
    | _, _, _, _ => none
  | _ => none

/-- Unicode replacement character. -/
def replacementChar : Char := Char.ofNat 0xFFFD

/-- Rune written by `unquote` for the escape with value `rr` followed by the input
`after`, and the number of further characters consumed (6 when a low surrogate
escape completes a pair). -/
def decodeEscape (rr : Nat) (after : List Char) : Char × Nat :=
  if 0xD800 ≤ rr ∧ rr < 0xE000 then
    match getu4 after with
    | some rr1 =>
      if rr < 0xDC00 ∧ 0xDC00 ≤ rr1 ∧ rr1 < 0xE000 then
        (Char.ofNat ((rr - 0xD800) * 1024 + (rr1 - 0xDC00) + 0x10000), 6)
      else (replacementChar, 0)
    | none => (replacementChar, 0)
  else (Char.ofNat rr, 0)

/-- String body after the opening quote: `skip` characters of an escape already
decoded are passed over, `acc` holds the decoded characters in reverse. -/
def scanString : Nat → List Char → List Char → Option (String × List Char)
  | _, _, [] => none
  | skip + 1, acc, _ :: cs => scanString skip acc cs
  | 0, acc, c :: cs =>
    if c = '"' then some (String.mk acc.reverse, cs)
    else if c = '\\' then
      match cs with
      | '"' :: _ => scanString 1 ('"' :: acc) cs
      | '\\' :: _ => scanString 1 ('\\' :: acc) cs
      | '/' :: _ => scanString 1 ('/' :: acc) cs
      | 'b' :: _ => scanString 1 (Char.ofNat 8 :: acc) cs
      | 'f' :: _ => scanString 1 (Char.ofNat 12 :: acc) cs
      | 'n' :: _ => scanString 1 ('\n' :: acc) cs
      | 'r' :: _ => scanString 1 ('\r' :: acc) cs
      | 't' :: _ => scanString 1 ('\t' :: acc) cs
      | 'u' :: _ =>
        match getu4 (c :: cs) with
        | none => none
        | some rr =>
          scanString (5 + (decodeEscape rr (cs.drop 5)).2)
            ((decodeEscape rr (cs.drop 5)).1 :: acc) cs
      | _ => none
    else if c.toNat < 0x20 then none
    else scanString 0 (c :: acc) cs

/-- Elements of a non-empty array after the opening bracket, up to and including the
closing bracket; `pv` decodes one element. -/
def parseElements (pv : List Char → Option (Json × List Char)) :
    Nat → List Char → Option (List Json × List Char)
  | 0, _ => none
  | n + 1, cs =>
    match pv cs with
    | none => none
    | some (v, rest) =>
      match skipSpace rest with
      | ',' :: rest' =>
        match parseElements pv n (skipSpace rest') with
        | none => none
        | some (vs, r) => some (v :: vs, r)
      | ']' :: rest' => some ([v], rest')
      | _ => none

/-- Members of a non-empty object after the opening brace, up to and including the
closing brace; `pv` decodes one member value. -/
def parseMembers (pv : List Char → Option (Json × List Char)) :
    Nat → List Char → Option (List (String × Json) × List Char)
  | 0, _ => none
  | n + 1, cs =>
    match cs with
    | '"' :: rest =>
      match scanString 0 [] rest with
      | none => none
      | some (k, rest1) =>
        match skipSpace rest1 with
        | ':' :: rest2 =>
          match pv (skipSpace rest2) with
          | none => none
          | some (v, rest3) =>
            match skipSpace rest3 with
            | ',' :: rest4 =>
              match parseMembers pv n (skipSpace rest4) with
              | none => none
              | some (kvs, r) => some ((k, v) :: kvs, r)
            | '}' :: rest4 => some ([(k, v)], rest4)
            | _ => none
        | _ => none
    | _ => none

/-- One JSON value at the head of the input, which starts with a non-space character;
`depth` bounds the nesting of arrays and objects.  The result is the syntax tree: an
object keeps its members as written, repeated keys included. -/
def parseValue : Nat → List Char → Option (Json × List Char)
  | depth, '{' :: rest =>
    match depth with
    | 0 => none
    | d + 1 =>
      match skipSpace rest with
      | '}' :: rest' => some (Json.obj [], rest')
      | rest' =>
        match parseMembers (parseValue d) rest'.length rest' with
        | none => none
        | some (kvs, r) => some (Json.obj kvs, r)
  | depth, '[' :: rest =>
    match depth with
    | 0 => none
    | d + 1 =>
      match skipSpace rest with
      | ']' :: rest' => some (Json.arr [], rest')
      | rest' =>
        match parseElements (parseValue d) rest'.length rest' with
        | none => none
        | some (vs, r) => some (Json.arr vs, r)
  | _, '"' :: rest =>
    match scanString 0 [] rest with
    | none => none
    | some (s, r) => some (Json.str s, r)
  | _, 't' :: 'r' :: 'u' :: 'e' :: rest => some (Json.bool true, rest)
  | _, 'f' :: 'a' :: 'l' :: 's' :: 'e' :: rest => some (Json.bool false, rest)
  | _, 'n' :: 'u' :: 'l' :: 'l' :: rest => some (Json.null, rest)
  | _, cs =>
    match scanNumber cs with
    | none => none
    | some (lit, r) => some (Json.num lit, r)

/-- Nesting depth accepted by the decoder. -/
def maxNestingDepth : Nat := 10000

/-- Syntax tree of a complete JSON text; `none` on a syntax error. -/
def parse (s : String) : Option Json :=
  match parseValue maxNestingDepth (skipSpace s.data) with
  | none => none
  | some (v, rest) =>
    match skipSpace rest with
    | [] => some v
    | _ => none

/-- The function `json.Valid`. -/
def Valid (s : String) : Bool := (parse s).isSome

mutual
/-- The Go value stored in an `interface{}` for a JSON value: an object becomes a
`map[string]interface{}`, in which a repeated key keeps its last value. -/
def toInterface : Json → Json
  | Json.obj kvs => Json.obj (GoMap.ofList (toInterfaceMembers kvs)).entries
  | Json.arr xs => Json.arr (toInterfaceList xs)
  | v => v
/-- Elementwise `toInterface`. -/
def toInterfaceList : List Json → List Json
  | [] => []
  | x :: xs => toInterface x :: toInterfaceList xs
/-- Memberwise `toInterface`. -/
def toInterfaceMembers : List (String × Json) → List (String × Json)
  | [] => []
  | (k, v) :: rest => (k, toInterface v) :: toInterfaceMembers rest
end

/-- The call `json.Unmarshal([]byte(s), &m)` for `var m map[string]interface{}`: a
syntax error and a top-level value that is neither an object nor `null` are errors;
`null` leaves the map `nil`.  Numbers are kept as literals, so the error Go reports
for a literal outside the range of `float64` is not part of the model. -/
def unmarshalMap (s : String) : Except GoError GoMap :=
  match parse s with
  | none => Except.error GoError.syntaxError
  | some (Json.obj kvs) => Except.ok (GoMap.ofList (toInterfaceMembers kvs))
  | some Json.null => Except.ok GoMap.empty
  | some _ => Except.error GoError.unmarshalTypeError

/-- Case folding of one rune of an object key, as far as it decides the match with an
ASCII field name: ASCII letters fold to upper case, the long s and the Kelvin sign
fold to `S` and `K`. -/
def foldRune (c : Char) : Char :=
  if 'a' ≤ c ∧ c ≤ 'z' then Char.ofNat (c.toNat - 32)
  else if c = Char.ofNat 0x17F then 'S'
  else if c = Char.ofNat 0x212A then 'K'
  else c

/-- Folded form of a key. -/
def foldName (s : String) : String := String.mk (s.data.map foldRune)

/-- Whether the object key `key` selects the struct field with JSON name `name`. -/
def fieldMatches (key name : String) : Bool := key = name || foldName key = foldName name

/-- Decoding of a JSON value into a struct field of type `string`: a string is
stored, `null` leaves the field, any other value is a type error. -/
def storeString (v : Json) (old : String) : Except GoError String :=
  match v with
  | Json.str s => Except.ok s
  | Json.null => Except.ok old
  | _ => Except.error GoError.unmarshalTypeError

end GoJson

/-! ## HTTP responses -/

/-- What the callers read of an `*http.Response`: status code, status text, headers,
and the outcome of `io.ReadAll` on the body. -/
structure HttpResponse where
  StatusCode : Nat
  Status : String
  Header : List (String × List String)
  Body : Except GoError String

/-- The method `Header.Get` for a key in canonical form: the first value stored
under the key, the empty string when there is none. -/
def headerGet (h : List (String × List String)) (key : String) : String :=
  match h with
  | [] => ""
  | (k, vs) :: rest => if k = key then vs.headD "" else headerGet rest key

/-! ## telemetry/listener.go -/

namespace telemetry

/-- Struct `TelemetryMessage`: one record of a batch (fields `type`, `time`,
`record`). -/
structure TelemetryMessage where
  Type_ : String
  Time : String
  Record : Json

/-- Calls the listener makes on its collaborators: `w.Write(ctx, record)` on a
writer and `httpServer.Shutdown(ctx)` on the server. -/
inductive Effect (ω : Type) where
  | write (w : ω) (record : GoMap)
  | serverShutdown

/-- Struct `http.Server`, as far as the listener sets it. -/
structure Server where
  Addr : String

/-- Struct `TelemetryApiListener`; `ω` is the type of writers. -/
structure TelemetryApiListener (ω : Type) where
  httpServer : Option Server
  writers : List ω

/-- Constructor `NewTelemetryApiListener`. -/
def NewTelemetryApiListener {ω : Type} (writers : List ω) : TelemetryApiListener ω :=
  ⟨none, writers⟩

/-- The call `w.Write(ctx, record)`: it is appended to the trace, and its result is
what the writers answer after the calls made so far (`result`). -/
def Write {ω : Type} (result : List (Effect ω) → Option GoError) (w : ω) (record : GoMap)
    (trace : List (Effect ω)) : List (Effect ω) × Option GoError :=
  (trace ++ [Effect.write w record], result (trace ++ [Effect.write w record]))

/-- The map literal of `http_handler` (lines 93-98): the enrichment base. -/
def baseRecord (region functionName : String) (r : TelemetryMessage) : GoMap :=
  (((GoMap.empty.set "time" (Json.str r.Time)).set "record_type" (Json.str r.Type_)).set
    "region" (Json.str region)).set "function_name" (Json.str functionName)

/-- Lines 93-119 of `http_handler`: the value of `formattedRecord` after the type
switch on `r.Record`.  `unmarshal` is `json.Unmarshal` into a
`map[string]interface{}`. -/
def formatRecord (unmarshal : String → Except GoError GoMap) (region functionName : String)
    (r : TelemetryMessage) : GoMap :=
  let formattedRecord := baseRecord region functionName r
  match r.Record with
  | Json.str record =>
    match unmarshal record with
    | Except.error _ => formattedRecord.set "message" (Json.str record)
    | Except.ok jsonRecord => formattedRecord.mergeInto jsonRecord.entries
  | Json.obj record => formattedRecord.mergeInto record
  | record => formattedRecord.set "raw" record

/-- Lines 121-123 of `http_handler`: the record is written to every writer, the
results of the calls being dropped. -/
def writeRecord {ω : Type} (result : List (Effect ω) → Option GoError) (writers : List ω)
    (record : GoMap) (trace : List (Effect ω)) : List (Effect ω) :=
  writers.foldl (fun t w => (Write result w record t).1) trace

/-- Lines 92-124 of `http_handler`: the loop over the decoded records. -/
def dispatch {ω : Type} (unmarshal : String → Except GoError GoMap)
    (result : List (Effect ω) → Option GoError) (region functionName : String)
    (s : TelemetryApiListener ω) (records : List TelemetryMessage)
    (trace : List (Effect ω)) : List (Effect ω) :=
  records.foldl
    (fun t r => writeRecord result s.writers (formatRecord unmarshal region functionName r) t)
    trace

/-- Method `http_handler`.  `body` is the outcome of reading the request body,
`unmarshalRecords` is `json.Unmarshal` into a `[]TelemetryMessage`, `getenv` is
`os.Getenv`. -/
def http_handler {ω : Type} (unmarshalRecords : String → Except GoError (List TelemetryMessage))
    (unmarshal : String → Except GoError GoMap) (result : List (Effect ω) → Option GoError)
    (getenv : String → String) (s : TelemetryApiListener ω) (body : Except GoError String)
    (trace : List (Effect ω)) : List (Effect ω) :=
  match body with
  | Except.error _ => trace
  | Except.ok body =>
    let region := getenv "AWS_REGION"
    let functionName := getenv "AWS_LAMBDA_FUNCTION_NAME"
    match unmarshalRecords body with
    | Except.error _ => trace
    | Except.ok records => dispatch unmarshal result region functionName s records trace

/-- The records a trace shows as written to the writer `w`, in order. -/
def recordsWrittenTo {ω : Type} [DecidableEq ω] (w : ω) (trace : List (Effect ω)) :
    List GoMap :=
  trace.filterMap fun e =>
    match e with
    | Effect.write w' record => if w' = w then some record else none
    | Effect.serverShutdown => none

/-- Method `Shutdown` of the listener.  `serverShutdown` is the result of
`s.httpServer.Shutdown(ctx)` (an error or `nil`), used when the call is made. -/
def Shutdown {ω : Type} (serverShutdown : Option GoError) (s : TelemetryApiListener ω)
    (trace : List (Effect ω)) : TelemetryApiListener ω × List (Effect ω) :=
  match s.httpServer with
  | some _ =>
    match serverShutdown with
    | some _ => (s, trace ++ [Effect.serverShutdown])
    | none => (⟨none, s.writers⟩, trace ++ [Effect.serverShutdown])
  | none => (s, trace)

/-! ## telemetry/client.go -/

/-- Type `EventType` of the Telemetry API, a string type. -/
abbrev EventType := String

/-- Constant `Platform`. -/
def Platform : EventType := "platform"

/-- Constant `Function`. -/
def Function : EventType := "function"

/-- Constant `Extension`. -/
def Extension : EventType := "extension"

/-- Pieces of a character sequence between its commas. -/
def splitComma : List Char → List (List Char)
  | [] => [[]]
  | c :: cs =>
    if c = ',' then [] :: splitComma cs
    else
      match splitComma cs with
      | [] => [[c]]
      | tok :: toks => (c :: tok) :: toks

/-- The call `strings.Split(s, ",")`. -/
def stringsSplit (s : String) : List String := (splitComma s.data).map String.mk

/-- The call `strings.ToLower(s)`; `toLower` is `unicode.ToLower`. -/
def stringsToLower (toLower : Char → Char) (s : String) : String :=
  String.mk (s.data.map toLower)

/-- Function `resolveSubscribeEvents`. -/
def resolveSubscribeEvents (toLower : Char → Char) (subscribeEvents : String) :
    List EventType :=
  let events : List EventType :=
    if subscribeEvents ≠ "" then
      (stringsSplit subscribeEvents).foldl
        (fun events e =>
          if stringsToLower toLower e = Platform then events ++ [Platform]
          else if stringsToLower toLower e = Function then events ++ [Function]
          else if stringsToLower toLower e = Extension then events ++ [Extension]
          else events)
        []
    else []
  if events.length = 0 then events ++ [Function] else events

/-- The category a token stands for when compared case-insensitively, if any. -/
def category (toLower : Char → Char) (token : String) : Option EventType :=
  if stringsToLower toLower token = "platform" then some Platform
  else if stringsToLower toLower token = "function" then some Function
  else if stringsToLower toLower token = "extension" then some Extension
  else none

/-- The subscribed categories as the specification words them: split the value on
commas, keep in order the tokens that name a category, and fall back to `function`
when nothing is kept. -/
def subscribeEventsSpec (toLower : Char → Char) (v : String) : List EventType :=
  match (stringsSplit v).filterMap (category toLower) with
  | [] => [Function]
  | kept => kept

/-- Struct `SubscribeResponse`. -/
structure SubscribeResponse where
  body : String

/-- Lines 187-192 of `Subscribe`: the body is read and returned. -/
def subscribeResult (resp : HttpResponse) : Except GoError SubscribeResponse :=
  match resp.Body with
  | Except.error err => Except.error err
  | Except.ok body => Except.ok ⟨body⟩

/-- Method `Subscribe` of the telemetry client, from the construction of the request
on.  `newRequest` is the error of `http.NewRequestWithContext` (or `nil`),
`roundTrip` the outcome of `c.httpClient.Do(req)`. -/
def Subscribe (baseUrl : String) (newRequest : Option GoError)
    (roundTrip : Except GoError HttpResponse) : Except GoError SubscribeResponse :=
  match newRequest with
  | some err => Except.error err
  | none =>
    match roundTrip with
    | Except.error err => Except.error err
    | Except.ok resp =>
      if resp.StatusCode = 202 then subscribeResult resp
      else if resp.StatusCode ≠ 200 then
        match resp.Body with
        | Except.error _ =>
          Except.error (GoError.message
            ("failed to subscribe to telemetry api '" ++ baseUrl ++ "': " ++
              toString resp.StatusCode ++ "[" ++ resp.Status ++ "]"))
        | Except.ok body =>
          Except.error (GoError.message
            ("failed to subscribe to telemetry api '" ++ baseUrl ++ "': " ++
              toString resp.StatusCode ++ "[" ++ resp.Status ++ "] " ++ body))
      else subscribeResult resp

end telemetry

/-! ## extension/client.go -/

namespace extension

/-- Type `EventType` of the Extension API, a string type. -/
abbrev EventType := String

/-- Constant `Invoke`. -/
def Invoke : EventType := "INVOKE"

/-- Constant `Shutdown`. -/
def Shutdown : EventType := "SHUTDOWN"

/-- Struct `RegisterResponse`. -/
structure RegisterResponse where
  FunctionName : String
  FunctionVersion : String
  Handler : String

/-- Struct `Tracing`. -/
structure Tracing where
  Type_ : String
  Value : String

/-- Struct `NextEventResponse`. -/
structure NextEventResponse where
  EventType : EventType
  DeadlineMS : Int
  RequestID : String
  InvokedFunctionARN : String
  Tracing : Tracing
  ShutdownReason : String

/-- Constant `extensionIdentifierHeader`. -/
def extensionIdentifierHeader : String := "Lambda-Extension-Identifier"

/-- Method `Register`, from the construction of the request on.  `unmarshal` is
`json.Unmarshal` into a `RegisterResponse`, `newRequest` the error of
`http.NewRequestWithContext` (or `nil`), `roundTrip` the outcome of
`c.httpClient.Do(req)`.  A Go result `("", err)` is `Except.error err`. -/
def Register (unmarshal : String → Except GoError RegisterResponse)
    (newRequest : Option GoError) (roundTrip : Except GoError HttpResponse) :
    Except GoError String :=
  match newRequest with
  | some err => Except.error err
  | none =>
    match roundTrip with
    | Except.error err => Except.error err
    | Except.ok res =>
      if res.StatusCode ≠ 200 then
        Except.error (GoError.message ("failed to register extension, http status: " ++ res.Status))
      else
        match res.Body with
        | Except.error err => Except.error err
        | Except.ok body =>
          match unmarshal body with
          | Except.error err => Except.error err
          | Except.ok _ => Except.ok (headerGet res.Header extensionIdentifierHeader)

end extension

/-! ## Decoding into the structs of the program -/

namespace GoJson

/-- One member of a JSON object decoded into a `RegisterResponse`. -/
def storeRegisterField (resp : extension.RegisterResponse) (k : String) (v : Json) :
    Except GoError extension.RegisterResponse :=
  if fieldMatches k "functionName" then
    (storeString v resp.FunctionName).map fun s => ⟨s, resp.FunctionVersion, resp.Handler⟩
  else if fieldMatches k "functionVersion" then
    (storeString v resp.FunctionVersion).map fun s => ⟨resp.FunctionName, s, resp.Handler⟩
  else if fieldMatches k "handler" then
    (storeString v resp.Handler).map fun s => ⟨resp.FunctionName, resp.FunctionVersion, s⟩
  else Except.ok resp

/-- The members of a JSON object decoded in order into a `RegisterResponse`. -/
def decodeRegisterMembers :
    List (String × Json) → extension.RegisterResponse →
      Except GoError extension.RegisterResponse
  | [], resp => Except.ok resp
  | (k, v) :: rest, resp =>
    match storeRegisterField resp k v with
    | Except.error e => Except.error e
    | Except.ok r => decodeRegisterMembers rest r

/-- The call `json.Unmarshal(body, &resp)` for `resp := RegisterResponse{}`. -/
def unmarshalRegisterResponse (s : String) : Except GoError extension.RegisterResponse :=
  match parse s with
  | none => Except.error GoError.syntaxError
  | some (Json.obj kvs) => decodeRegisterMembers kvs ⟨"", "", ""⟩
  | some Json.null => Except.ok ⟨"", "", ""⟩
  | some _ => Except.error GoError.unmarshalTypeError

/-- One member of a JSON object decoded into a `TelemetryMessage`. -/
def storeMessageField (m : telemetry.TelemetryMessage) (k : String) (v : Json) :
    Except GoError telemetry.TelemetryMessage :=
  if fieldMatches k "type" then
    (storeString v m.Type_).map fun s => ⟨s, m.Time, m.Record⟩
  else if fieldMatches k "time" then
    (storeString v m.Time).map fun s => ⟨m.Type_, s, m.Record⟩
  else if fieldMatches k "record" then Except.ok ⟨m.Type_, m.Time, toInterface v⟩
  else Except.ok m

/-- The members of a JSON object decoded in order into a `TelemetryMessage`. -/
def decodeMessageMembers :
    List (String × Json) → telemetry.TelemetryMessage →
      Except GoError telemetry.TelemetryMessage
  | [], m => Except.ok m
  | (k, v) :: rest, m =>
    match storeMessageField m k v with
    | Except.error e => Except.error e
    | Except.ok m' => decodeMessageMembers rest m'

/-- One element of the batch decoded into a `TelemetryMessage`. -/
def decodeMessage (v : Json) : Except GoError telemetry.TelemetryMessage :=
  match v with
  | Json.obj kvs => decodeMessageMembers kvs ⟨"", "", Json.null⟩
  | Json.null => Except.ok ⟨"", "", Json.null⟩
  | _ => Except.error GoError.unmarshalTypeError

/-- The elements of the batch decoded in order. -/
def decodeMessages : List Json → Except GoError (List telemetry.TelemetryMessage)
  | [] => Except.ok []
  | v :: vs =>
    match decodeMessage v with
    | Except.error e => Except.error e
    | Except.ok m =>
      match decodeMessages vs with
      | Except.error e => Except.error e
      | Except.ok ms => Except.ok (m :: ms)

/-- The call `json.Unmarshal(body, &records)` for `var records []TelemetryMessage`. -/
def unmarshalRecords (s : String) : Except GoError (List telemetry.TelemetryMessage) :=
  match parse s with
  | none => Except.error GoError.syntaxError
  | some (Json.arr vs) => decodeMessages vs
  | some Json.null => Except.ok []
  | some _ => Except.error GoError.unmarshalTypeError

end GoJson

/-! ## main.go: the event loop -/

namespace Main

/-- Calls the event loop makes: `extensionApiClient.NextEvent`, `w.Flush(ctx)` on a
writer, and `cancel()` on the root context. -/
inductive Action (ω : Type) where
  | nextEvent
  | flush (w : ω)
  | cancel
  deriving DecidableEq

/-- What the environment does around one iteration of the loop: whether a termination
signal is delivered before the `select` is evaluated, which channel case the runtime
picks when both are ready, the outcome of `NextEvent` if it is called, and whether a
signal is delivered while that call is suspended. -/
structure Tick where
  signal : Bool
  pickDone : Bool
  poll : Except GoError extension.NextEventResponse
  signalDuringPoll : Bool

/-- The `return` statement by which the loop is left: line 99 (context done), line
104 (signal), line 112 (error of `NextEvent`), line 118 (`SHUTDOWN` event). -/
inductive Exit where
  | ctxDone
  | signal
  | nextEventError
  | shutdownEvent
  deriving DecidableEq

/-- State of the loop: whether the root context is cancelled, whether a signal is
buffered in the channel `exit` (capacity 1), and the calls made so far. -/
structure LoopState (ω : Type) where
  cancelled : Bool
  pending : Bool
  trace : List (Action ω)

/-- Closure `flushTelemetryInfo`: `Flush` is called on every writer in order, the
results being dropped. -/
def flushTelemetryInfo {ω : Type} (ws : List ω) (trace : List (Action ω)) : List (Action ω) :=
  ws.foldl (fun t w => t ++ [Action.flush w]) trace

/-- The `for`/`select` loop of `main` (lines 95-121), run against the environment
`ticks`, one tick per iteration.  The result is the final state and the `return`
taken, or `none` when the loop is still running after the last tick. -/
def eventLoop {ω : Type} (ws : List ω) :
    List Tick → LoopState ω → LoopState ω × Option Exit
  | [], st => (st, none)
  | t :: rest, st =>
    if st.cancelled && (!(st.pending || t.signal) || t.pickDone) then
      (⟨st.cancelled, st.pending || t.signal, st.trace⟩, some Exit.ctxDone)
    else if st.pending || t.signal then
      (⟨true, false, flushTelemetryInfo ws st.trace ++ [Action.cancel]⟩, some Exit.signal)
    else
      match t.poll with
      | Except.error _ =>
        (⟨st.cancelled, t.signalDuringPoll, st.trace ++ [Action.nextEvent]⟩,
          some Exit.nextEventError)
      | Except.ok res =>
        if res.EventType = extension.Shutdown then
          (⟨st.cancelled, t.signalDuringPoll,
              flushTelemetryInfo ws (st.trace ++ [Action.nextEvent])⟩,
            some Exit.shutdownEvent)
        else
          eventLoop ws rest ⟨st.cancelled, t.signalDuringPoll, st.trace ++ [Action.nextEvent]⟩

/-- State in which `main` enters the loop: the context is live, nothing was called. -/
def initialState {ω : Type} : LoopState ω := ⟨false, false, []⟩

end Main

/-! ## Sample inputs -/

/-- A register response with status 200 and an empty body. -/
def sampleRegisterEmptyBody : HttpResponse :=
  ⟨200, "200 OK", [("Lambda-Extension-Identifier", ["id-1"])], Except.ok ""⟩

/-- A register response with status 200 and a body that decodes. -/
def sampleRegisterOk : HttpResponse :=
  ⟨200, "200 OK", [("Lambda-Extension-Identifier", ["id-1"])],
    Except.ok ("\x7b\"functionName\":\"fn\",\"functionVersion\":\"1\"," ++
      "\"handler\":\"index.handler\"\x7d")⟩

/-- A response with status 403. -/
def sampleForbidden : HttpResponse :=
  ⟨403, "403 Forbidden", [], Except.ok "denied"⟩

/-- A subscribe response with status 200. -/
def sampleSubscribeOk : HttpResponse := ⟨200, "200 OK", [], Except.ok "OK"⟩

/-- A subscribe response with status 202. -/
def sampleSubscribeAccepted : HttpResponse := ⟨202, "202 Accepted", [], Except.ok ""⟩

namespace telemetry

/-- The object of the second boundary scenario, with the single key `k`. -/
def sampleObject : GoMap := GoMap.empty.set "k" (Json.num "1")

/-- The request body of the first boundary scenario. -/
def sampleBody : String :=
  "[\x7b\"type\":\"function\",\"time\":\"2024-01-01T00:00:00Z\"," ++
    "\"record\":\x7b\"msg\":\"hi\",\"lvl\":\"info\"\x7d\x7d]"

/-- The object record of the first boundary scenario. -/
def sampleRecord : GoMap := (GoMap.empty.set "msg" (Json.str "hi")).set "lvl" (Json.str "info")

/-- The environment of the first boundary scenario. -/
def sampleGetenv (name : String) : String :=
  if name = "AWS_REGION" then "us-east-1"
  else if name = "AWS_LAMBDA_FUNCTION_NAME" then "fn"
  else ""

/-- The enriched record of the first boundary scenario. -/
def sampleEnriched : GoMap :=
  (((((GoMap.empty.set "time" (Json.str "2024-01-01T00:00:00Z")).set "record_type"
    (Json.str "function")).set "region" (Json.str "us-east-1")).set "function_name"
    (Json.str "fn")).set "msg" (Json.str "hi")).set "lvl" (Json.str "info")

/-- The error of a graceful termination that runs into its deadline. -/
def deadlineExceeded : GoError := GoError.message "context deadline exceeded"

/-- A listener that is serving, with one writer. -/
def sampleListener : TelemetryApiListener String := ⟨some ⟨"sandbox:4323"⟩, ["fluentd"]⟩

end telemetry

namespace Main

/-- An event of the given type, as `NextEvent` returns it. -/
def sampleEvent (eventType : extension.EventType) : extension.NextEventResponse :=
  ⟨eventType, 1700000000000, "req-1", "arn:aws:lambda:us-east-1:1:function:fn", ⟨"", ""⟩,
    ""⟩

/-- A tick without signals on which `NextEvent` returns an event of the given type. -/
def quietTick (eventType : extension.EventType) : Tick :=
  ⟨false, false, Except.ok (sampleEvent eventType), false⟩

/-- A tick on which a signal is delivered while `NextEvent` is suspended and the call
then returns an error. -/
def signalThenErrorTick : Tick := ⟨false, false, Except.error (GoError.message "EOF"), true⟩

/-- A tick on which a signal is delivered while `NextEvent` is suspended and the call
then returns an `INVOKE` event. -/
def signalThenInvokeTick : Tick :=
  ⟨false, false, Except.ok (sampleEvent extension.Invoke), true⟩

end Main

/-! ## Properties of Go maps -/

theorem getEntries_setEntries (k k' : String) (v : Json) (l : List (String × Json)) :
    getEntries k' (setEntries k v l) = if k' = k then some v else getEntries k' l := by
  induction l with
  | nil =>
    by_cases h : k' = k
    · simp [setEntries, getEntries, h]
    · have h' : ¬ k = k' := fun e => h e.symm
      simp [setEntries, getEntries, h, h']
  | cons e rest ih =>
    obtain ⟨k₀, v₀⟩ := e
    by_cases h0 : k₀ = k
    · subst h0
      by_cases h : k' = k₀
      · simp [setEntries, getEntries, h]
      · have h' : ¬ k₀ = k' := fun e => h e.symm
        simp [setEntries, getEntries, h, h']
    · by_cases h : k₀ = k'
      · subst h
        simp [setEntries, getEntries, h0]
      · simp [setEntries, getEntries, h0, h, ih]

theorem getEntries_eq_none_iff (k : String) (l : List (String × Json)) :
    getEntries k l = none ↔ k ∉ l.map Prod.fst := by
  induction l with
  | nil => simp [getEntries]
  | cons e rest ih =>
    obtain ⟨k₀, v₀⟩ := e
    by_cases h : k₀ = k
    · subst h
      simp [getEntries]
    · have h' : ¬ k = k₀ := fun e => h e.symm
      simp [getEntries, h, h', ih]

/-- With pairwise distinct keys, lookup finds exactly the entries of the list. -/
theorem getEntries_eq_some_iff (k : String) (v : Json) (l : List (String × Json))
    (hl : (l.map Prod.fst).Nodup) : getEntries k l = some v ↔ (k, v) ∈ l := by
  induction l with
  | nil => simp [getEntries]
  | cons e rest ih =>
    obtain ⟨k₀, v₀⟩ := e
    rw [List.map_cons, List.nodup_cons] at hl
    by_cases h : k₀ = k
    · subst h
      have hnot : ∀ w, (k₀, w) ∉ rest := fun w hw =>
        hl.1 (List.mem_map.mpr ⟨(k₀, w), hw, rfl⟩)
      constructor
      · intro hv
        simp only [getEntries, if_true, Option.some.injEq] at hv
        subst hv
        exact List.mem_cons_self _ _
      · intro hm
        rcases List.mem_cons.mp hm with heq | hmem
        · simp only [Prod.mk.injEq, true_and] at heq
          simp [getEntries, heq]
        · exact absurd hmem (hnot v)
    · have h' : ¬ k = k₀ := fun e => h e.symm
      simp [getEntries, h, h', ih hl.2]

namespace GoMap

theorem get_empty (k : String) : empty.get k = none := rfl

theorem get_set (m : GoMap) (k k' : String) (v : Json) :
    (m.set k v).get k' = if k' = k then some v else m.get k' :=
  getEntries_setEntries k k' v m.entries

/-- A key that the source of a merge does not have keeps the value of the target. -/
theorem get_mergeInto_of_none (dst : GoMap) (src : List (String × Json)) (k : String)
    (h : getEntries k src = none) : (dst.mergeInto src).get k = dst.get k := by
  induction src generalizing dst with
  | nil => rfl
  | cons e rest ih =>
    obtain ⟨k₀, v₀⟩ := e
    have hk : ¬ k₀ = k := by
      intro e
      simp [getEntries, e] at h
    have hk' : ¬ k = k₀ := fun e => hk e.symm
    have hrest : getEntries k rest = none := by
      simpa [getEntries, hk] using h
    have step : (dst.mergeInto ((k₀, v₀) :: rest)) = (dst.set k₀ v₀).mergeInto rest := rfl
    rw [step, ih (dst.set k₀ v₀) hrest, get_set, if_neg hk']

/-- A key of the source of a merge takes the value the source has for it. -/
theorem get_mergeInto_of_some (dst : GoMap) (src : List (String × Json)) (k : String)
    (v : Json) (hs : (src.map Prod.fst).Nodup) (h : getEntries k src = some v) :
    (dst.mergeInto src).get k = some v := by
  induction src generalizing dst with
  | nil => simp [getEntries] at h
  | cons e rest ih =>
    obtain ⟨k₀, v₀⟩ := e
    rw [List.map_cons, List.nodup_cons] at hs
    have step : (dst.mergeInto ((k₀, v₀) :: rest)) = (dst.set k₀ v₀).mergeInto rest := rfl
    by_cases hk : k₀ = k
    · subst hk
      have hv : v₀ = v := by simpa [getEntries] using h
      subst hv
      have hnone : getEntries k₀ rest = none := (getEntries_eq_none_iff k₀ rest).mpr hs.1
      rw [step, get_mergeInto_of_none _ _ _ hnone, get_set, if_pos rfl]
    · have hrest : getEntries k rest = some v := by
        simpa [getEntries, hk] using h
      rw [step, ih (dst.set k₀ v₀) hs.2 hrest]

/-- Lookup in a merge: the source wins, the target fills in. -/
theorem get_mergeInto (dst src : GoMap) (k : String) :
    (dst.mergeInto src.entries).get k =
      match src.get k with
      | some v => some v
      | none => dst.get k := by
  cases h : src.get k with
  | none => exact get_mergeInto_of_none dst src.entries k h
  | some v => exact get_mergeInto_of_some dst src.entries k v src.nodup h

/-- The result of the merge loop does not depend on the order in which `range`
visits the entries of the source map. -/
theorem get_mergeInto_perm (dst src : GoMap) (order : List (String × Json))
    (h : order.Perm src.entries) (k : String) :
    (dst.mergeInto order).get k = (dst.mergeInto src.entries).get k := by
  have hn : (order.map Prod.fst).Nodup := ((h.map Prod.fst).nodup_iff).mpr src.nodup
  have hlook : getEntries k order = getEntries k src.entries := by
    cases hs : getEntries k src.entries with
    | none =>
      rw [getEntries_eq_none_iff] at hs ⊢
      intro hm
      exact hs ((h.map Prod.fst).mem_iff.mp hm)
    | some v =>
      rw [getEntries_eq_some_iff k v _ src.nodup] at hs
      rw [getEntries_eq_some_iff k v _ hn]
      exact h.mem_iff.mpr hs
  cases hs : getEntries k src.entries with
  | none =>
    rw [get_mergeInto_of_none dst order k (hlook.trans hs),
      get_mergeInto_of_none dst src.entries k hs]
  | some v =>
    rw [get_mergeInto_of_some dst order k v hn (hlook.trans hs),
      get_mergeInto_of_some dst src.entries k v src.nodup hs]

end GoMap

/-! ## The decoder model -/

namespace GoJson

/-- In the decoder model, a string that is not valid JSON does not decode into a
map. -/
theorem unmarshalMap_of_not_valid (s : String) (h : Valid s = false) :
    ∃ e, unmarshalMap s = Except.error e := by
  unfold Valid at h
  cases hp : parse s with
  | none =>
    refine ⟨GoError.syntaxError, ?_⟩
    simp only [unmarshalMap, hp]
  | some v => simp [hp] at h

/-- In the decoder model, decoding into a map succeeds exactly for a JSON object and
for `null`. -/
theorem unmarshalMap_ok_iff (s : String) :
    (∃ J, unmarshalMap s = Except.ok J) ↔
      (∃ kvs, parse s = some (Json.obj kvs)) ∨ parse s = some Json.null := by
  cases hp : parse s with
  | none => simp [unmarshalMap, hp]
  | some v => cases v <;> simp [unmarshalMap, hp]

end GoJson

/-! ## The request handler: enrichment -/

namespace telemetry

/-- The enrichment base holds exactly the four enrichment keys. -/
theorem get_baseRecord (region functionName : String) (r : TelemetryMessage) (k : String) :
    (baseRecord region functionName r).get k =
      if k = "time" then some (Json.str r.Time)
      else if k = "record_type" then some (Json.str r.Type_)
      else if k = "region" then some (Json.str region)
      else if k = "function_name" then some (Json.str functionName)
      else none := by
  simp only [baseRecord, GoMap.get_set, GoMap.get_empty]
  split_ifs <;> simp_all

/-- Claim C2.  For a record whose `record` field is the JSON object `R`, the enriched
record is the enrichment base overwritten by `R`: under every key it holds the value
of `R` when `R` has the key, otherwise the enrichment value when the key is one of the
four enrichment keys, and otherwise nothing. -/
theorem formatRecord_object (unmarshal : String → Except GoError GoMap)
    (region functionName type_ time : String) (R : GoMap) (k : String) :
    (formatRecord unmarshal region functionName ⟨type_, time, Json.obj R.entries⟩).get k =
      match R.get k with
      | some v => some v
      | none =>
        if k = "time" then some (Json.str time)
        else if k = "record_type" then some (Json.str type_)
        else if k = "region" then some (Json.str region)
        else if k = "function_name" then some (Json.str functionName)
        else none := by
  have h : formatRecord unmarshal region functionName ⟨type_, time, Json.obj R.entries⟩ =
      (baseRecord region functionName ⟨type_, time, Json.obj R.entries⟩).mergeInto
        R.entries := rfl
  rw [h, GoMap.get_mergeInto, get_baseRecord]

/-- Claim C3.  When the string `S` decodes as the JSON object `J`, the record with
`record = S` and the record with `record = J` are enriched to the same map. -/
theorem formatRecord_string_eq_object (unmarshal : String → Except GoError GoMap)
    (region functionName type_ time S : String) (J : GoMap)
    (h : unmarshal S = Except.ok J) :
    formatRecord unmarshal region functionName ⟨type_, time, Json.str S⟩ =
      formatRecord unmarshal region functionName ⟨type_, time, Json.obj J.entries⟩ := by
  simp only [formatRecord, h, baseRecord]

/-- Witness of C3: the string record of the second boundary scenario. -/
theorem formatRecord_string_eq_object_witness :
    GoJson.unmarshalMap "\x7b\"k\":1\x7d" = Except.ok sampleObject ∧
    formatRecord GoJson.unmarshalMap "us-east-1" "fn"
        ⟨"function", "2024-01-01T00:00:00Z", Json.str "\x7b\"k\":1\x7d"⟩ =
      formatRecord GoJson.unmarshalMap "us-east-1" "fn"
        ⟨"function", "2024-01-01T00:00:00Z", Json.obj sampleObject.entries⟩ :=
  ⟨rfl, formatRecord_string_eq_object GoJson.unmarshalMap "us-east-1" "fn" "function"
    "2024-01-01T00:00:00Z" "\x7b\"k\":1\x7d" sampleObject rfl⟩

/-- With the decoder model: a JSON object sent as the `record` value and the same
JSON text sent as a string `record` are enriched to the same map. -/
theorem formatRecord_text_eq_embedded (region functionName type_ time S : String)
    (kvs : List (String × Json)) (h : GoJson.parse S = some (Json.obj kvs)) :
    formatRecord GoJson.unmarshalMap region functionName ⟨type_, time, Json.str S⟩ =
      formatRecord GoJson.unmarshalMap region functionName
        ⟨type_, time, GoJson.toInterface (Json.obj kvs)⟩ := by
  simp only [formatRecord, GoJson.unmarshalMap, h, GoJson.toInterface, baseRecord]

/-- Boundary scenarios 2 to 4: a string record that is a JSON object, a plain-text
string record, and a record of another shape. -/
theorem formatRecord_boundary_scenarios :
    (formatRecord GoJson.unmarshalMap "us-east-1" "fn"
        ⟨"function", "2024-01-01T00:00:00Z", Json.str "\x7b\"k\":1\x7d"⟩).entries =
      [("time", Json.str "2024-01-01T00:00:00Z"), ("record_type", Json.str "function"),
        ("region", Json.str "us-east-1"), ("function_name", Json.str "fn"),
        ("k", Json.num "1")] ∧
    (formatRecord GoJson.unmarshalMap "us-east-1" "fn"
        ⟨"function", "2024-01-01T00:00:00Z", Json.str "oops"⟩).entries =
      [("time", Json.str "2024-01-01T00:00:00Z"), ("record_type", Json.str "function"),
        ("region", Json.str "us-east-1"), ("function_name", Json.str "fn"),
        ("message", Json.str "oops")] ∧
    (formatRecord GoJson.unmarshalMap "us-east-1" "fn"
        ⟨"function", "2024-01-01T00:00:00Z", Json.num "42"⟩).entries =
      [("time", Json.str "2024-01-01T00:00:00Z"), ("record_type", Json.str "function"),
        ("region", Json.str "us-east-1"), ("function_name", Json.str "fn"),
        ("raw", Json.num "42")] :=
  ⟨rfl, rfl, rfl⟩

/-- Counterexample to C4.  The string `42` is valid JSON, and the handler sets
`message` to it: the enriched record is the base plus `message = "42"`. -/
theorem formatRecord_valid_json_sets_message :
    GoJson.Valid "42" = true ∧
    formatRecord GoJson.unmarshalMap "us-east-1" "fn"
        ⟨"function", "2024-01-01T00:00:00Z", Json.str "42"⟩ =
      (baseRecord "us-east-1" "fn" ⟨"function", "2024-01-01T00:00:00Z", Json.str "42"⟩).set
        "message" (Json.str "42") :=
  ⟨by decide, rfl⟩

/-- Claim C4, amended.  For a record whose `record` field is the string `S`: when
decoding `S` into a string-keyed map fails, the enriched record is the enrichment base
plus `message = S`; when the decoding succeeds with the map `J`, the handler does not
add `message = S`: the enriched record is the base overwritten by `J`, and its
`message` entry, if any, is the one of `J`.  With the decoder model, a string that is
not valid JSON is in the first case. -/
theorem formatRecord_string (unmarshal : String → Except GoError GoMap)
    (region functionName type_ time S : String) :
    (∀ e, unmarshal S = Except.error e →
      formatRecord unmarshal region functionName ⟨type_, time, Json.str S⟩ =
        (baseRecord region functionName ⟨type_, time, Json.str S⟩).set "message"
          (Json.str S)) ∧
    (∀ J, unmarshal S = Except.ok J →
      formatRecord unmarshal region functionName ⟨type_, time, Json.str S⟩ =
          (baseRecord region functionName ⟨type_, time, Json.str S⟩).mergeInto J.entries ∧
        (formatRecord unmarshal region functionName ⟨type_, time, Json.str S⟩).get
          "message" = J.get "message") ∧
    (GoJson.Valid S = false →
      formatRecord GoJson.unmarshalMap region functionName ⟨type_, time, Json.str S⟩ =
        (baseRecord region functionName ⟨type_, time, Json.str S⟩).set "message"
          (Json.str S)) := by
  refine ⟨fun e he => ?_, fun J hJ => ?_, fun hv => ?_⟩
  · simp only [formatRecord, he]
  rotate_left
  · obtain ⟨e, he⟩ := GoJson.unmarshalMap_of_not_valid S hv
    simp only [formatRecord, he]
  · have hE : formatRecord unmarshal region functionName ⟨type_, time, Json.str S⟩ =
        (baseRecord region functionName ⟨type_, time, Json.str S⟩).mergeInto J.entries := by
      simp only [formatRecord, hJ]
    refine ⟨hE, ?_⟩
    rw [hE, GoMap.get_mergeInto, get_baseRecord]
    cases J.get "message" with
    | none => simp
    | some v => rfl

/-- Witness of the amended C4: the plain-text record `oops` fails to decode and gets a
`message`; the record of the second boundary scenario decodes and gets none; a
truncated JSON text is not valid and gets a `message`. -/
theorem formatRecord_string_witness :
    formatRecord GoJson.unmarshalMap "us-east-1" "fn"
        ⟨"function", "2024-01-01T00:00:00Z", Json.str "oops"⟩ =
      (baseRecord "us-east-1" "fn" ⟨"function", "2024-01-01T00:00:00Z", Json.str "oops"⟩).set
        "message" (Json.str "oops") ∧
    (formatRecord GoJson.unmarshalMap "us-east-1" "fn"
        ⟨"function", "2024-01-01T00:00:00Z", Json.str "\x7b\"k\":1\x7d"⟩).get "message" =
      sampleObject.get "message" ∧
    formatRecord GoJson.unmarshalMap "us-east-1" "fn"
        ⟨"function", "2024-01-01T00:00:00Z", Json.str "\x7b\"k\":"⟩ =
      (baseRecord "us-east-1" "fn"
        ⟨"function", "2024-01-01T00:00:00Z", Json.str "\x7b\"k\":"⟩).set
        "message" (Json.str "\x7b\"k\":") :=
  ⟨(formatRecord_string GoJson.unmarshalMap "us-east-1" "fn" "function"
      "2024-01-01T00:00:00Z" "oops").1 _ rfl,
    ((formatRecord_string GoJson.unmarshalMap "us-east-1" "fn" "function"
      "2024-01-01T00:00:00Z" "\x7b\"k\":1\x7d").2.1 sampleObject rfl).2,
    (formatRecord_string GoJson.unmarshalMap "us-east-1" "fn" "function"
      "2024-01-01T00:00:00Z" "\x7b\"k\":").2.2 (by decide)⟩

end telemetry

/-! ## The request handler: fan-out to the writers -/

namespace telemetry

theorem writeRecord_eq {ω : Type} (result : List (Effect ω) → Option GoError)
    (writers : List ω) (record : GoMap) (trace : List (Effect ω)) :
    writeRecord result writers record trace =
      trace ++ writers.map fun w => Effect.write w record := by
  induction writers generalizing trace with
  | nil => simp [writeRecord]
  | cons w ws ih =>
    have step : writeRecord result (w :: ws) record trace =
        writeRecord result ws record (trace ++ [Effect.write w record]) := rfl
    rw [step, ih]
    simp

theorem dispatch_eq {ω : Type} (unmarshal : String → Except GoError GoMap)
    (result : List (Effect ω) → Option GoError) (region functionName : String)
    (s : TelemetryApiListener ω) (records : List TelemetryMessage)
    (trace : List (Effect ω)) :
    dispatch unmarshal result region functionName s records trace =
      trace ++ records.flatMap fun r =>
        s.writers.map fun w => Effect.write w (formatRecord unmarshal region functionName r) := by
  induction records generalizing trace with
  | nil => simp [dispatch]
  | cons r rs ih =>
    have step : dispatch unmarshal result region functionName s (r :: rs) trace =
        dispatch unmarshal result region functionName s rs
          (writeRecord result s.writers (formatRecord unmarshal region functionName r) trace) :=
      rfl
    rw [step, ih, writeRecord_eq]
    simp [List.flatMap_cons]

theorem recordsWrittenTo_append {ω : Type} [DecidableEq ω] (w : ω)
    (t₁ t₂ : List (Effect ω)) :
    recordsWrittenTo w (t₁ ++ t₂) = recordsWrittenTo w t₁ ++ recordsWrittenTo w t₂ := by
  simp [recordsWrittenTo, List.filterMap_append]

theorem recordsWrittenTo_writes {ω : Type} [DecidableEq ω] (w : ω) (writers : List ω)
    (hn : writers.Nodup) (hw : w ∈ writers) (record : GoMap) :
    recordsWrittenTo w (writers.map fun w' => Effect.write w' record) = [record] := by
  induction writers with
  | nil => simp at hw
  | cons w' ws ih =>
    rw [List.nodup_cons] at hn
    by_cases h : w' = w
    · subst h
      have hrest : recordsWrittenTo w' (ws.map fun w'' => Effect.write w'' record) = [] := by
        simp only [recordsWrittenTo, List.filterMap_map, List.filterMap_eq_nil_iff]
        intro x hx
        have hne : ¬ x = w' := fun e => hn.1 (e ▸ hx)
        simp [hne]
      have hcons : recordsWrittenTo w' ((w' :: ws).map fun w'' => Effect.write w'' record) =
          record :: recordsWrittenTo w' (ws.map fun w'' => Effect.write w'' record) := by
        simp [recordsWrittenTo]
      rw [hcons, hrest]
    · have hmem : w ∈ ws := by
        rcases List.mem_cons.mp hw with e | e
        · exact absurd e.symm h
        · exact e
      have hcons : recordsWrittenTo w ((w' :: ws).map fun w'' => Effect.write w'' record) =
          recordsWrittenTo w (ws.map fun w'' => Effect.write w'' record) := by
        simp [recordsWrittenTo, h]
      rw [hcons, ih hn.2 hmem]

/-- Claim C1.  For a request body that decodes to the records `r1..rn`, the handler
issues exactly the calls `w1(e1), ..., wm(e1), w1(e2), ..., wm(en)` in this order,
whatever the write calls return (`result`); and when the writers are pairwise
distinct, each of them is offered the enriched records `e1..en`, each once, in
arrival order. -/
theorem http_handler_writes {ω : Type} [DecidableEq ω]
    (unmarshalRecords : String → Except GoError (List TelemetryMessage))
    (unmarshal : String → Except GoError GoMap) (result : List (Effect ω) → Option GoError)
    (getenv : String → String) (s : TelemetryApiListener ω) (body : String)
    (records : List TelemetryMessage) (trace : List (Effect ω))
    (h : unmarshalRecords body = Except.ok records) :
    http_handler unmarshalRecords unmarshal result getenv s (Except.ok body) trace =
        trace ++ records.flatMap (fun r =>
          s.writers.map fun w => Effect.write w
            (formatRecord unmarshal (getenv "AWS_REGION")
              (getenv "AWS_LAMBDA_FUNCTION_NAME") r)) ∧
    (s.writers.Nodup → ∀ w ∈ s.writers,
      recordsWrittenTo w
          (http_handler unmarshalRecords unmarshal result getenv s (Except.ok body) []) =
        records.map
          (formatRecord unmarshal (getenv "AWS_REGION") (getenv "AWS_LAMBDA_FUNCTION_NAME"))) := by
  have hrun : ∀ t : List (Effect ω),
      http_handler unmarshalRecords unmarshal result getenv s (Except.ok body) t =
        t ++ records.flatMap (fun r =>
          s.writers.map fun w => Effect.write w
            (formatRecord unmarshal (getenv "AWS_REGION")
              (getenv "AWS_LAMBDA_FUNCTION_NAME") r)) := by
    intro t
    simp only [http_handler, h]
    exact dispatch_eq _ _ _ _ _ _ _
  refine ⟨hrun trace, fun hn w hw => ?_⟩
  rw [hrun, List.nil_append]
  clear hrun h
  induction records with
  | nil => rfl
  | cons r rs ih =>
    rw [List.flatMap_cons, recordsWrittenTo_append, recordsWrittenTo_writes w _ hn hw, ih]
    rfl

/-- Witness of C1: the batch of the first boundary scenario, two writers, every write
call failing. -/
theorem http_handler_writes_witness :
    GoJson.unmarshalRecords sampleBody =
        Except.ok [⟨"function", "2024-01-01T00:00:00Z", Json.obj sampleRecord.entries⟩] ∧
    http_handler GoJson.unmarshalRecords GoJson.unmarshalMap
        (fun _ => some (GoError.message "failed to send record")) sampleGetenv
        (NewTelemetryApiListener ["fluentd", "stdout"]) (Except.ok sampleBody) [] =
      [Effect.write "fluentd" sampleEnriched, Effect.write "stdout" sampleEnriched] ∧
    recordsWrittenTo "stdout"
        (http_handler GoJson.unmarshalRecords GoJson.unmarshalMap
          (fun _ => some (GoError.message "failed to send record")) sampleGetenv
          (NewTelemetryApiListener ["fluentd", "stdout"]) (Except.ok sampleBody) []) =
      [sampleEnriched] :=
  ⟨rfl,
    (http_handler_writes GoJson.unmarshalRecords GoJson.unmarshalMap
      (fun _ => some (GoError.message "failed to send record")) sampleGetenv
      (NewTelemetryApiListener ["fluentd", "stdout"]) sampleBody _ [] rfl).1,
    (http_handler_writes GoJson.unmarshalRecords GoJson.unmarshalMap
      (fun _ => some (GoError.message "failed to send record")) sampleGetenv
      (NewTelemetryApiListener ["fluentd", "stdout"]) sampleBody _ [] rfl).2
      (by decide) "stdout" (by decide)⟩

end telemetry

/-! ## The subscribed event categories -/

namespace telemetry

theorem splitComma_ne_nil (cs : List Char) : splitComma cs ≠ [] := by
  cases cs with
  | nil => simp [splitComma]
  | cons c cs =>
    unfold splitComma
    split_ifs
    · simp
    · split <;> simp

/-- The pieces joined by commas give back the sequence. -/
theorem intercalate_splitComma (cs : List Char) :
    List.intercalate [','] (splitComma cs) = cs := by
  induction cs with
  | nil => rfl
  | cons c cs ih =>
    unfold splitComma
    by_cases hc : c = ','
    · simp only [hc, if_true]
      cases hs : splitComma cs with
      | nil => exact absurd hs (splitComma_ne_nil cs)
      | cons tok toks =>
        rw [hs] at ih
        simp only [List.intercalate, List.intersperse, List.flatten_cons, List.nil_append,
          List.singleton_append] at ih ⊢
        rw [ih]
    · simp only [hc, if_false]
      cases hs : splitComma cs with
      | nil => exact absurd hs (splitComma_ne_nil cs)
      | cons tok toks =>
        rw [hs] at ih
        cases toks with
        | nil =>
          simp only [List.intercalate, List.intersperse, List.flatten_cons, List.flatten_nil,
            List.append_nil] at ih ⊢
          rw [ih]
        | cons tok' toks' =>
          simp only [List.intercalate, List.intersperse, List.flatten_cons,
            List.cons_append] at ih ⊢
          rw [ih]

/-- No piece holds a comma. -/
theorem splitComma_no_comma (cs : List Char) : ∀ tok ∈ splitComma cs, ',' ∉ tok := by
  induction cs with
  | nil => simp [splitComma]
  | cons c cs ih =>
    unfold splitComma
    by_cases hc : c = ','
    · simp only [hc, if_true, List.mem_cons]
      rintro tok (h | h)
      · simp [h]
      · exact ih tok h
    · simp only [hc, if_false]
      cases hs : splitComma cs with
      | nil => exact absurd hs (splitComma_ne_nil cs)
      | cons tok toks =>
        rw [hs] at ih
        simp only [List.mem_cons]
        rintro tok' (h | h)
        · subst h
          have := ih tok (List.mem_cons_self _ _)
          simp only [List.mem_cons, not_or]
          exact ⟨fun e => hc e.symm, this⟩
        · exact ih tok' (List.mem_cons_of_mem _ h)

theorem category_mem (toLower : Char → Char) (token : String) (c : EventType)
    (h : category toLower token = some c) : c = Platform ∨ c = Function ∨ c = Extension := by
  unfold category at h
  split_ifs at h <;> simp_all

theorem category_empty (toLower : Char → Char) : category toLower "" = none := by
  have h : stringsToLower toLower "" = "" := rfl
  simp only [category, h]
  decide

theorem foldl_events_eq (toLower : Char → Char) (tokens : List String)
    (events : List EventType) :
    tokens.foldl
        (fun events e =>
          if stringsToLower toLower e = Platform then events ++ [Platform]
          else if stringsToLower toLower e = Function then events ++ [Function]
          else if stringsToLower toLower e = Extension then events ++ [Extension]
          else events)
        events =
      events ++ tokens.filterMap (category toLower) := by
  induction tokens generalizing events with
  | nil => simp
  | cons e rest ih =>
    rw [List.foldl_cons, ih]
    unfold category
    simp only [Platform, Function, Extension]
    split_ifs <;> simp [List.filterMap_cons, *]

/-- Claim C5.  The function `resolveSubscribeEvents` computes what the specification
words: the tokens between the commas of the value that name a category (compared in
lower case), in order, or `[function]` when there is none.  The result is never empty
and holds only the three categories. -/
theorem resolveSubscribeEvents_spec (toLower : Char → Char) (v : String) :
    resolveSubscribeEvents toLower v = subscribeEventsSpec toLower v ∧
    resolveSubscribeEvents toLower v ≠ [] ∧
    (∀ e ∈ resolveSubscribeEvents toLower v,
      e = Platform ∨ e = Function ∨ e = Extension) ∧
    ((stringsSplit v).filterMap (category toLower) = [] →
      resolveSubscribeEvents toLower v = [Function]) := by
  have hspec : resolveSubscribeEvents toLower v = subscribeEventsSpec toLower v := by
    unfold resolveSubscribeEvents subscribeEventsSpec
    by_cases hv : v = ""
    · subst hv
      have hsplit : stringsSplit "" = [""] := rfl
      simp [hsplit, category_empty]
    · simp only [ne_eq, hv, not_false_eq_true, if_true, foldl_events_eq, List.nil_append]
      cases (stringsSplit v).filterMap (category toLower) with
      | nil => rfl
      | cons c cs => simp
  have hne : subscribeEventsSpec toLower v ≠ [] := by
    unfold subscribeEventsSpec
    cases (stringsSplit v).filterMap (category toLower) with
    | nil => simp
    | cons c cs => simp
  have hmem : ∀ e ∈ subscribeEventsSpec toLower v,
      e = Platform ∨ e = Function ∨ e = Extension := by
    intro e he
    unfold subscribeEventsSpec at he
    cases hk : (stringsSplit v).filterMap (category toLower) with
    | nil =>
      rw [hk] at he
      simp only [List.mem_singleton] at he
      exact Or.inr (Or.inl he)
    | cons c cs =>
      rw [hk] at he
      simp only at he
      rw [← hk] at he
      obtain ⟨token, _, htok⟩ := List.mem_filterMap.mp he
      exact category_mem toLower token e htok
  refine ⟨hspec, hspec ▸ hne, hspec ▸ hmem, fun hk => ?_⟩
  rw [hspec]
  unfold subscribeEventsSpec
  rw [hk]

/-- Witness of C5: a value with unknown tokens only. -/
theorem resolveSubscribeEvents_spec_witness :
    (stringsSplit "logs,metrics").filterMap (category Char.toLower) = [] ∧
    resolveSubscribeEvents Char.toLower "logs,metrics" = [Function] :=
  ⟨by decide, (resolveSubscribeEvents_spec Char.toLower "logs,metrics").2.2.2 (by decide)⟩

/-! ## Subscribe -/

/-- Claim C6.  For a response to the subscribe request whose body can be read:
`Subscribe` succeeds with the body on status 200, succeeds on status 202, and fails on
every other status; it fails exactly when the status is neither 200 nor 202. -/
theorem Subscribe_status (baseUrl : String) (resp : HttpResponse) (body : String)
    (hb : resp.Body = Except.ok body) :
    (resp.StatusCode = 200 →
      Subscribe baseUrl none (Except.ok resp) = Except.ok ⟨body⟩) ∧
    (resp.StatusCode = 202 →
      Subscribe baseUrl none (Except.ok resp) = Except.ok ⟨body⟩) ∧
    (resp.StatusCode ≠ 200 → resp.StatusCode ≠ 202 →
      Subscribe baseUrl none (Except.ok resp) =
        Except.error (GoError.message
          ("failed to subscribe to telemetry api '" ++ baseUrl ++ "': " ++
            toString resp.StatusCode ++ "[" ++ resp.Status ++ "] " ++ body))) ∧
    ((∃ e, Subscribe baseUrl none (Except.ok resp) = Except.error e) ↔
      resp.StatusCode ≠ 200 ∧ resp.StatusCode ≠ 202) := by
  have h200 : resp.StatusCode = 200 →
      Subscribe baseUrl none (Except.ok resp) = Except.ok ⟨body⟩ := by
    intro h
    simp [Subscribe, subscribeResult, h, hb]
  have h202 : resp.StatusCode = 202 →
      Subscribe baseUrl none (Except.ok resp) = Except.ok ⟨body⟩ := by
    intro h
    simp [Subscribe, subscribeResult, h, hb]
  have hother : resp.StatusCode ≠ 200 → resp.StatusCode ≠ 202 →
      Subscribe baseUrl none (Except.ok resp) =
        Except.error (GoError.message
          ("failed to subscribe to telemetry api '" ++ baseUrl ++ "': " ++
            toString resp.StatusCode ++ "[" ++ resp.Status ++ "] " ++ body)) := by
    intro h1 h2
    simp [Subscribe, h1, h2, hb]
  refine ⟨h200, h202, hother, ?_, ?_⟩
  · rintro ⟨e, he⟩
    refine ⟨fun h => ?_, fun h => ?_⟩
    · rw [h200 h] at he
      cases he
    · rw [h202 h] at he
      cases he
  · rintro ⟨h1, h2⟩
    exact ⟨_, hother h1 h2⟩

/-- Witness of C6: a 200, a 202 and a 403 response. -/
theorem Subscribe_status_witness :
    Subscribe "http://127.0.0.1:9001/2022-07-01/telemetry" none
        (Except.ok sampleSubscribeOk) = Except.ok ⟨"OK"⟩ ∧
    Subscribe "http://127.0.0.1:9001/2022-07-01/telemetry" none
        (Except.ok sampleSubscribeAccepted) = Except.ok ⟨""⟩ ∧
    (∃ e, Subscribe "http://127.0.0.1:9001/2022-07-01/telemetry" none
        (Except.ok sampleForbidden) = Except.error e) :=
  ⟨(Subscribe_status _ sampleSubscribeOk "OK" rfl).1 rfl,
    (Subscribe_status _ sampleSubscribeAccepted "" rfl).2.1 rfl,
    (Subscribe_status _ sampleForbidden "denied" rfl).2.2.2.2 ⟨by decide, by decide⟩⟩

end telemetry

/-! ## Register -/

namespace extension

/-- Counterexample to C7.  For a response with status 200 and an empty body,
`Register` fails: the body does not decode. -/
theorem Register_fails_on_status_200 :
    sampleRegisterEmptyBody.StatusCode = 200 ∧
    Register GoJson.unmarshalRegisterResponse none (Except.ok sampleRegisterEmptyBody) =
      Except.error GoError.syntaxError :=
  ⟨rfl, rfl⟩

/-- Claim C7, amended.  For a response to the register request: on a status other
than 200, `Register` fails with an error that ends in the status text; on status 200
with a body that can be read and decodes, it returns the value of the header
`Lambda-Extension-Identifier`, whatever the body holds; on status 200 with a body that
cannot be read or does not decode, it fails with the error of the read or of the
decoding. -/
theorem Register_status (unmarshal : String → Except GoError RegisterResponse)
    (res : HttpResponse) :
    (res.StatusCode ≠ 200 →
      Register unmarshal none (Except.ok res) =
        Except.error
          (GoError.message ("failed to register extension, http status: " ++ res.Status))) ∧
    (res.StatusCode = 200 → ∀ body r, res.Body = Except.ok body →
      unmarshal body = Except.ok r →
      Register unmarshal none (Except.ok res) =
        Except.ok (headerGet res.Header "Lambda-Extension-Identifier")) ∧
    (res.StatusCode = 200 → ∀ body e, res.Body = Except.ok body →
      unmarshal body = Except.error e →
      Register unmarshal none (Except.ok res) = Except.error e) ∧
    (res.StatusCode = 200 → ∀ e, res.Body = Except.error e →
      Register unmarshal none (Except.ok res) = Except.error e) := by
  refine ⟨fun h => ?_, fun h body r hb hr => ?_, fun h body e hb he => ?_, fun h e hb => ?_⟩
  · simp [Register, h]
  · simp [Register, h, hb, hr, extensionIdentifierHeader]
  · simp [Register, h, hb, he]
  · simp [Register, h, hb]

/-- Witness of the amended C7: a 200 response with a body that decodes, and a 403
response. -/
theorem Register_status_witness :
    Register GoJson.unmarshalRegisterResponse none (Except.ok sampleRegisterOk) =
      Except.ok "id-1" ∧
    Register GoJson.unmarshalRegisterResponse none (Except.ok sampleForbidden) =
      Except.error (GoError.message "failed to register extension, http status: 403 Forbidden") :=
  ⟨(Register_status GoJson.unmarshalRegisterResponse sampleRegisterOk).2.1 rfl _
      ⟨"fn", "1", "index.handler"⟩ rfl rfl,
    (Register_status GoJson.unmarshalRegisterResponse sampleForbidden).1 (by decide)⟩

end extension

/-! ## The event loop -/

namespace Main

theorem flushTelemetryInfo_eq {ω : Type} (ws : List ω) (trace : List (Action ω)) :
    flushTelemetryInfo ws trace = trace ++ ws.map Action.flush := by
  induction ws generalizing trace with
  | nil => simp [flushTelemetryInfo]
  | cons w rest ih =>
    have step : flushTelemetryInfo (w :: rest) trace =
        flushTelemetryInfo rest (trace ++ [Action.flush w]) := rfl
    rw [step, ih]
    simp

/-- With a live context and a signal buffered or just delivered, the `select` takes
the signal case: flush, cancel, return. -/
theorem eventLoop_signal {ω : Type} (ws : List ω) (t : Tick) (rest : List Tick)
    (st : LoopState ω) (hc : st.cancelled = false) (hs : (st.pending || t.signal) = true) :
    eventLoop ws (t :: rest) st =
      (⟨true, false, st.trace ++ ws.map Action.flush ++ [Action.cancel]⟩,
        some Exit.signal) := by
  simp [eventLoop, hc, hs, flushTelemetryInfo_eq]

/-- With a live context and no signal, the `select` takes the default case and the
outcome of `NextEvent` decides. -/
theorem eventLoop_default {ω : Type} (ws : List ω) (t : Tick) (rest : List Tick)
    (st : LoopState ω) (hc : st.cancelled = false) (hs : (st.pending || t.signal) = false) :
    eventLoop ws (t :: rest) st =
      match t.poll with
      | Except.error _ =>
        (⟨false, t.signalDuringPoll, st.trace ++ [Action.nextEvent]⟩, some Exit.nextEventError)
      | Except.ok res =>
        if res.EventType = extension.Shutdown then
          (⟨false, t.signalDuringPoll, st.trace ++ [Action.nextEvent] ++ ws.map Action.flush⟩,
            some Exit.shutdownEvent)
        else eventLoop ws rest ⟨false, t.signalDuringPoll, st.trace ++ [Action.nextEvent]⟩ := by
  simp only [eventLoop, hc, hs, flushTelemetryInfo_eq]
  simp

/-- The calls of a run that starts with a live context and returns: some `NextEvent`
calls, followed by what the `return` taken does. -/
theorem eventLoop_run {ω : Type} (ws : List ω) (ticks : List Tick) (st st' : LoopState ω)
    (exit : Exit) (hc : st.cancelled = false)
    (h : eventLoop ws ticks st = (st', some exit)) :
    ∃ n, (exit = Exit.signal ∧
        st'.trace = st.trace ++ List.replicate n Action.nextEvent ++ ws.map Action.flush ++
          [Action.cancel]) ∨
      (exit = Exit.shutdownEvent ∧
        st'.trace = st.trace ++ List.replicate (n + 1) Action.nextEvent ++
          ws.map Action.flush) ∨
      (exit = Exit.nextEventError ∧
        st'.trace = st.trace ++ List.replicate (n + 1) Action.nextEvent) := by
  induction ticks generalizing st with
  | nil => simp [eventLoop] at h
  | cons t rest ih =>
    cases hs : (st.pending || t.signal) with
    | true =>
      rw [eventLoop_signal ws t rest st hc hs] at h
      simp only [Prod.mk.injEq, Option.some.injEq] at h
      obtain ⟨h1, h2⟩ := h
      subst h1 h2
      exact ⟨0, Or.inl ⟨rfl, by simp⟩⟩
    | false =>
      rw [eventLoop_default ws t rest st hc hs] at h
      cases hp : t.poll with
      | error e =>
        simp only [hp, Prod.mk.injEq, Option.some.injEq] at h
        obtain ⟨h1, h2⟩ := h
        subst h1 h2
        exact ⟨0, Or.inr (Or.inr ⟨rfl, by simp⟩)⟩
      | ok res =>
        simp only [hp] at h
        by_cases hev : res.EventType = extension.Shutdown
        · simp only [hev, if_true, Prod.mk.injEq, Option.some.injEq] at h
          obtain ⟨h1, h2⟩ := h
          subst h1 h2
          exact ⟨0, Or.inr (Or.inl ⟨rfl, by simp⟩)⟩
        · simp only [hev, if_false] at h
          obtain ⟨n, hn⟩ := ih _ rfl h
          refine ⟨n + 1, ?_⟩
          rcases hn with ⟨he, ht⟩ | ⟨he, ht⟩ | ⟨he, ht⟩
          · exact Or.inl ⟨he, by simp [ht, List.replicate_succ]⟩
          · exact Or.inr (Or.inl ⟨he, by simp [ht, List.replicate_succ]⟩)
          · exact Or.inr (Or.inr ⟨he, by simp [ht, List.replicate_succ]⟩)

/-- Claim C8.  In an iteration that calls `NextEvent` (live context, no signal): when
the call returns a `SHUTDOWN` event, the loop calls `Flush` on every writer once, in
writer order, and returns, whatever the environment would do next; when it returns an
`INVOKE` event, the loop flushes nothing and goes to the next iteration.  In every run
from the initial state that returns on a `SHUTDOWN` event, the calls are `NextEvent`
calls followed by one `Flush` per writer. -/
theorem eventLoop_nextEvent_event {ω : Type} (ws : List ω) (t : Tick) (rest : List Tick)
    (st : LoopState ω) (res : extension.NextEventResponse)
    (hc : st.cancelled = false) (hs : (st.pending || t.signal) = false)
    (hp : t.poll = Except.ok res) :
    (res.EventType = extension.Shutdown →
      eventLoop ws (t :: rest) st =
        (⟨false, t.signalDuringPoll, st.trace ++ [Action.nextEvent] ++ ws.map Action.flush⟩,
          some Exit.shutdownEvent)) ∧
    (res.EventType = extension.Invoke →
      eventLoop ws (t :: rest) st =
        eventLoop ws rest ⟨false, t.signalDuringPoll, st.trace ++ [Action.nextEvent]⟩) ∧
    (∀ ticks st', eventLoop ws ticks initialState = (st', some Exit.shutdownEvent) →
      ∃ n, st'.trace = List.replicate (n + 1) Action.nextEvent ++ ws.map Action.flush) := by
  refine ⟨fun he => ?_, fun he => ?_, fun ticks st' hrun => ?_⟩
  · rw [eventLoop_default ws t rest st hc hs]
    simp only [hp, he, if_true]
  · have hne : ¬ res.EventType = extension.Shutdown := by
      rw [he]
      decide
    rw [eventLoop_default ws t rest st hc hs]
    simp only [hp, hne, if_false]
  · obtain ⟨n, hn⟩ := eventLoop_run ws ticks initialState st' Exit.shutdownEvent rfl hrun
    refine ⟨n, ?_⟩
    rcases hn with ⟨he, _⟩ | ⟨_, ht⟩ | ⟨he, _⟩
    · cases he
    · simpa [initialState] using ht
    · cases he

/-- Witness of C8: a `SHUTDOWN` event with two writers, and an `INVOKE` event before
it. -/
theorem eventLoop_nextEvent_event_witness :
    eventLoop ["fluentd", "stdout"]
        [quietTick extension.Shutdown, quietTick extension.Invoke] initialState =
      (⟨false, false, [Action.nextEvent, Action.flush "fluentd", Action.flush "stdout"]⟩,
        some Exit.shutdownEvent) ∧
    eventLoop ["fluentd", "stdout"]
        [quietTick extension.Invoke, quietTick extension.Shutdown] initialState =
      eventLoop ["fluentd", "stdout"] [quietTick extension.Shutdown]
        ⟨false, false, [Action.nextEvent]⟩ :=
  ⟨(eventLoop_nextEvent_event ["fluentd", "stdout"] (quietTick extension.Shutdown)
      [quietTick extension.Invoke] initialState (sampleEvent extension.Shutdown)
      rfl rfl rfl).1 rfl,
    (eventLoop_nextEvent_event ["fluentd", "stdout"] (quietTick extension.Invoke)
      [quietTick extension.Shutdown] initialState (sampleEvent extension.Invoke)
      rfl rfl rfl).2.1 rfl⟩

/-- Counterexample to C9.  A signal is delivered while `NextEvent` is suspended and
the call then returns an error: the loop returns, and no writer was flushed. -/
theorem eventLoop_signal_without_flush :
    signalThenErrorTick.signalDuringPoll = true ∧
    (eventLoop ["fluentd"] [signalThenErrorTick] initialState).2 =
      some Exit.nextEventError ∧
    (eventLoop ["fluentd"] [signalThenErrorTick] initialState).1.trace =
      [Action.nextEvent] ∧
    Action.flush "fluentd" ∉
      (eventLoop ["fluentd"] [signalThenErrorTick] initialState).1.trace :=
  ⟨rfl, rfl, rfl, by decide⟩

/-- Claim C9, amended.  In every run from the initial state that returns otherwise
than on an error of `NextEvent`, the calls are `NextEvent` calls followed by one
`Flush` per writer, in writer order, followed by `cancel` when the loop returns on a
signal: the flushes precede the cancellation and no `NextEvent` call follows them.  A
signal that is buffered when the `select` is evaluated is taken at once; a signal
delivered while `NextEvent` is suspended is taken in the next iteration when the call
returns an event other than `SHUTDOWN`; when the call returns an error the loop
returns without a flush. -/
theorem eventLoop_signal_flush {ω : Type} (ws : List ω) :
    (∀ ticks st' exit, eventLoop ws ticks initialState = (st', some exit) →
      exit ≠ Exit.nextEventError →
      ∃ n, st'.trace = List.replicate n Action.nextEvent ++ ws.map Action.flush ++
        (if exit = Exit.signal then [Action.cancel] else [])) ∧
    (∀ (t : Tick) (rest : List Tick) (st : LoopState ω), st.cancelled = false →
      (st.pending || t.signal) = true →
      eventLoop ws (t :: rest) st =
        (⟨true, false, st.trace ++ ws.map Action.flush ++ [Action.cancel]⟩,
          some Exit.signal)) ∧
    (∀ (t t' : Tick) (rest : List Tick) (st : LoopState ω) (res : extension.NextEventResponse),
      st.cancelled = false → (st.pending || t.signal) = false →
      t.poll = Except.ok res → res.EventType ≠ extension.Shutdown →
      t.signalDuringPoll = true →
      eventLoop ws (t :: t' :: rest) st =
        (⟨true, false,
            st.trace ++ [Action.nextEvent] ++ ws.map Action.flush ++ [Action.cancel]⟩,
          some Exit.signal)) ∧
    (∀ (t : Tick) (rest : List Tick) (st : LoopState ω) (e : GoError),
      st.cancelled = false → (st.pending || t.signal) = false →
      t.poll = Except.error e →
      eventLoop ws (t :: rest) st =
        (⟨false, t.signalDuringPoll, st.trace ++ [Action.nextEvent]⟩,
          some Exit.nextEventError)) := by
  refine ⟨fun ticks st' exit hrun hne => ?_, fun t rest st hc hs => ?_,
    fun t t' rest st res hc hs hp hev hsig => ?_, fun t rest st e hc hs hp => ?_⟩
  · obtain ⟨n, hn⟩ := eventLoop_run ws ticks initialState st' exit rfl hrun
    rcases hn with ⟨he, ht⟩ | ⟨he, ht⟩ | ⟨he, _⟩
    · exact ⟨n, by simpa [initialState, he] using ht⟩
    · exact ⟨n + 1, by simpa [initialState, he] using ht⟩
    · exact absurd he hne
  · exact eventLoop_signal ws t rest st hc hs
  · rw [eventLoop_default ws t (t' :: rest) st hc hs]
    simp only [hp, hev, if_false]
    rw [eventLoop_signal ws t' rest _ rfl (by simp [hsig])]
  · rw [eventLoop_default ws t rest st hc hs]
    simp only [hp]

/-- Witness of the amended C9: a signal delivered while `NextEvent` is suspended, the
call returning an `INVOKE` event. -/
theorem eventLoop_signal_flush_witness :
    eventLoop ["fluentd"] [signalThenInvokeTick, quietTick extension.Invoke] initialState =
      (⟨true, false, [Action.nextEvent, Action.flush "fluentd", Action.cancel]⟩,
        some Exit.signal) ∧
    (∃ n, [Action.nextEvent, Action.flush "fluentd", Action.cancel] =
      List.replicate n Action.nextEvent ++ ["fluentd"].map Action.flush ++
        (if Exit.signal = Exit.signal then [Action.cancel] else [])) :=
  ⟨(eventLoop_signal_flush ["fluentd"]).2.2.1 signalThenInvokeTick
      (quietTick extension.Invoke) [] initialState (sampleEvent extension.Invoke)
      rfl rfl rfl (by decide) rfl,
    (eventLoop_signal_flush ["fluentd"]).1
      [signalThenInvokeTick, quietTick extension.Invoke] _ Exit.signal rfl (by decide)⟩

end Main

/-! ## Listener shutdown -/

namespace telemetry

/-- Counterexample to C10.  When the graceful termination fails, the first `Shutdown`
keeps the server handle, and a second `Shutdown` requests termination again and
changes the listener. -/
theorem Shutdown_repeats_after_error :
    (Shutdown (some deadlineExceeded) sampleListener []).1.httpServer =
      some ⟨"sandbox:4323"⟩ ∧
    (Shutdown none (Shutdown (some deadlineExceeded) sampleListener []).1
        (Shutdown (some deadlineExceeded) sampleListener []).2).2 =
      [Effect.serverShutdown, Effect.serverShutdown] ∧
    (Shutdown none (Shutdown (some deadlineExceeded) sampleListener []).1
        (Shutdown (some deadlineExceeded) sampleListener []).2).1.httpServer =
      none :=
  ⟨rfl, rfl, rfl⟩

/-- Claim C10, amended.  When the server handle is absent or the graceful termination
succeeds, the handle is nil after `Shutdown` and a second `Shutdown` is a no-op: it
leaves the listener unchanged and requests no termination, whatever the termination
would answer.  With an absent handle `Shutdown` does nothing.  When the termination
fails, `Shutdown` keeps the listener as it is, handle included, after the one request
it made. -/
theorem Shutdown_idempotent {ω : Type} (s : TelemetryApiListener ω)
    (trace : List (Effect ω)) (second : Option GoError) :
    (Shutdown none s trace).1.httpServer = none ∧
    Shutdown second (Shutdown none s trace).1 (Shutdown none s trace).2 =
      Shutdown none s trace ∧
    (s.httpServer = none → ∀ first, Shutdown first s trace = (s, trace)) ∧
    (∀ srv e, s.httpServer = some srv →
      Shutdown (some e) s trace = (s, trace ++ [Effect.serverShutdown])) := by
  obtain ⟨srv, ws⟩ := s
  cases srv with
  | none =>
    refine ⟨rfl, rfl, fun _ first => rfl, fun srv e h => ?_⟩
    cases h
  | some srv =>
    refine ⟨rfl, rfl, fun h => ?_, fun srv' e _ => rfl⟩
    cases h

/-- Witness of the amended C10: a listener without server, and a serving listener
whose termination fails. -/
theorem Shutdown_idempotent_witness :
    Shutdown (some deadlineExceeded) (NewTelemetryApiListener ["fluentd"]) [] =
      (NewTelemetryApiListener ["fluentd"], []) ∧
    Shutdown (some deadlineExceeded) sampleListener [] =
      (sampleListener, [] ++ [Effect.serverShutdown]) :=
  ⟨(Shutdown_idempotent (NewTelemetryApiListener ["fluentd"]) [] none).2.2.1 rfl _,
    (Shutdown_idempotent sampleListener [] none).2.2.2 ⟨"sandbox:4323"⟩ _ rfl⟩

end telemetry

end TelemetryExt
